import Mathlib

/-!
Shallow embedding of the core logic of the `project-overview` application
(`src/app/mod.rs`, `src/app/context_page.rs`, `src/config.rs`,
`src/domain/program.rs`, `src/domain/project.rs`).

Conventions of the embedding:
- Rust `String`/`&str` become Lean `String`; filesystem paths become strings.
- `std::time::SystemTime` (totally ordered by its `Ord` instance) becomes a
  `Nat` timestamp.
- A Rust panic (`unwrap` on `None`/`Err`) is modeled as `Except.error`; a
  handler that cannot panic returns `Except.ok`.
- Filesystem responses (`read_dir` results, `DirEntry` metadata) are inputs of
  the embedded functions, so every possible io outcome can be analyzed.
-/

namespace ProjectOverview

/-- Model of Rust `str::contains` (substring test) on explicit character
lists: `containsSeq needle hay = true` iff `needle` occurs contiguously in
`hay` (the empty needle always occurs). -/
def containsSeq (needle : List Char) : List Char → Bool
  | [] => needle.isEmpty
  | c :: rest => needle.isPrefixOf (c :: rest) || containsSeq needle rest

/-- Model of Rust `str::contains`: `strContains hay needle` is
`hay.contains(needle)`. -/
def strContains (hay needle : String) : Bool :=
  containsSeq needle.toList hay.toList

/-- `src/domain/program.rs` lines 3-7: a launch template with a display
`name` and a `command` string template. -/
structure Program where
  name : String
  command : String
deriving DecidableEq, Repr

/-- `Program::is_valid_command` (`src/domain/program.rs` lines 20-22):
`command.contains("%path%")`. -/
def Program.is_valid_command (command : String) : Bool :=
  strContains command "%path%"

/-- `src/domain/project.rs` lines 4-8: a discovered workspace directory with
its base name and last-modified timestamp. -/
structure Project where
  name : String
  modify : Nat
deriving DecidableEq, Repr

/-- `src/config.rs` lines 10-15: persisted configuration (schema version 1). -/
structure Config where
  project_root_path : Option String
  programs : List Program
deriving DecidableEq, Repr

/-- Core fields of `AppModel` (`src/app/mod.rs` lines 28-48). UI-only fields
(`core`, `context_page`, `key_binds`, widget ids) are omitted. The
`Option<cosmic_config::Config>` write handle carries no data these claims
depend on, so its presence is modeled as `Option Unit`. -/
structure AppModel where
  config_handler : Option Unit
  config : Config
  search_text : String
  root_path_input : String
  program_command_input : String
  program_name_input : String
  projects : List Project
  programs : List Program
deriving DecidableEq, Repr

/-- The order used by `AppModel::filter_projects`: the comparator
`|a, b| b.modify().cmp(a.modify())` orders `a` no later than `b` exactly when
it does not return `Greater`, i.e. when `b.modify ≤ a.modify` (most recently
modified first). -/
def byRecency (a b : Project) : Prop := b.modify ≤ a.modify

instance : DecidableRel byRecency :=
  fun a b => inferInstanceAs (Decidable (b.modify ≤ a.modify))

instance : IsTotal Project byRecency :=
  ⟨fun a b => Nat.le_total b.modify a.modify⟩

instance : IsTrans Project byRecency :=
  ⟨fun _ _ _ hab hbc => Nat.le_trans hbc hab⟩

/-- `AppModel::filter_projects` (`src/app/mod.rs` lines 318-326): keep the
projects whose name contains the search text (case-sensitive `str::contains`,
with an explicit empty-query bypass), then `itertools::sorted_by` with the
comparator `|a, b| b.modify().cmp(a.modify())`. The contract of `sorted_by`
(via `Vec::sort_by`) is exactly "stable sort by the comparator", which
determines the output uniquely; it is modeled here by `List.insertionSort`
over `byRecency`, which is proved below to be a permutation
(`List.perm_insertionSort`), sorted by the same relation
(`List.sorted_insertionSort`) and stable (`List.sublist_insertionSort`). -/
def AppModel.filter_projects (s : AppModel) : List Project :=
  (s.projects.filter fun project =>
      s.search_text.isEmpty || strContains project.name s.search_text).insertionSort
    byRecency

/-- `AppModel::is_valid_program` (`src/app/mod.rs` lines 378-385). -/
def AppModel.is_valid_program (s : AppModel) : Bool :=
  !s.program_name_input.isEmpty
    && Program.is_valid_command s.program_command_input
    && !s.programs.any fun p => p.name == s.program_name_input

/-- Modelled from the spec: the `CosmicConfigEntry`-derived setter
`Config::set_programs` is generated by a macro of the `cosmic` crate and is
not part of this repository. Per the spec it updates the in-memory field and
attempts a disk write; the disk outcome is an input here (`writeOk`) and is
returned alongside the updated in-memory `Config`. Callers in
`src/app/mod.rs` discard the outcome with `let _ =`. -/
def Config.set_programs (c : Config) (programs : List Program) (writeOk : Bool) :
    Config × Bool :=
  ({ c with programs := programs }, writeOk)

/-- Modelled from the spec: derived setter for `project_root_path`; see
`Config.set_programs`. -/
def Config.set_project_root_path (c : Config) (path : Option String)
    (writeOk : Bool) : Config × Bool :=
  ({ c with project_root_path := path }, writeOk)

/-- `AppModel::save_programs` (`src/app/mod.rs` lines 371-376). The Rust code
calls `self.config_handler.as_ref().unwrap()`, so an absent handler panics
(modeled as `Except.error`); otherwise the derived setter runs and its write
outcome is discarded. -/
def AppModel.save_programs (s : AppModel) (writeOk : Bool) :
    Except String AppModel :=
  match s.config_handler with
  | none => .error "called Option::unwrap() on a None value"
  | some _ => .ok { s with config := (s.config.set_programs s.programs writeOk).1 }

/-- `Message::ProgramSave` handler (`src/app/mod.rs` lines 254-266): build a
`Program` from the two input fields, append it unconditionally, clear the
inputs, persist via `save_programs`. -/
def AppModel.program_save (s : AppModel) (writeOk : Bool) :
    Except String AppModel :=
  AppModel.save_programs
    { s with
      programs := s.programs ++ [⟨s.program_name_input, s.program_command_input⟩],
      program_command_input := "",
      program_name_input := "" }
    writeOk

/-- The add-program operation as wired in the presentation layer
(`src/app/context_page.rs` lines 112-116): the Add button dispatches
`Message::ProgramSave` only when `is_valid_program` holds; with invalid
inputs the button has no `on_press` handler and pressing it does nothing. -/
def AppModel.add_program (s : AppModel) (writeOk : Bool) :
    Except String AppModel :=
  if s.is_valid_program then s.program_save writeOk else .ok s

/-- `Message::RootPathSave` handler (`src/app/mod.rs` lines 242-247): unwrap
the config handler (panic when absent, modeled as `Except.error`), then call
the derived setter, discarding the write outcome with `let _ =`. -/
def AppModel.root_path_save (s : AppModel) (path : String) (writeOk : Bool) :
    Except String AppModel :=
  match s.config_handler with
  | none => .error "called Option::unwrap() on a None value"
  | some _ =>
    .ok { s with config := (s.config.set_project_root_path (some path) writeOk).1 }

/-- Model of `std::fs::Metadata` as consumed by `src/domain/project.rs`: only
the `modified()` accessor is used, and it can fail with an io error. -/
structure Metadata where
  modified : Except String Nat
deriving Repr

/-- Model of `std::fs::DirEntry` as consumed by the repository: `file_name`
is `none` when the OS string is not valid UTF-8 (`to_str()` returns `None`),
and `metadata()` can fail with an io error. -/
structure DirEntry where
  file_name : Option String
  metadata : Except String Metadata
deriving Repr

/-- `TryFrom<DirEntry> for Project` (`src/domain/project.rs` lines 20-37):
fail if the file name is not valid UTF-8, then if `metadata()` fails, then if
`modified()` fails; otherwise emit the `Project`. -/
def Project.try_from (e : DirEntry) : Except String Project :=
  match e.file_name with
  | none => .error "Failed to convert dir entry to Project"
  | some name =>
    match e.metadata with
    | .error err => .error err
    | .ok m =>
      match m.modified with
      | .error err => .error err
      | .ok modify => .ok { name := name, modify := modify }

/-- The scan body of `Message::UpdateProjects` (`src/app/mod.rs` lines
278-287): iterate the `read_dir` results, drop iteration errors with
`filter_map(|dir| dir.ok())`, then drop entries whose conversion to
`Project` fails (the error is logged and the entry skipped, never
fabricated). -/
def scanEntries (entries : List (Except String DirEntry)) : List Project :=
  (entries.filterMap Except.toOption).filterMap
    fun e => (Project.try_from e).toOption

/-- `Message::UpdateProjects` handler (`src/app/mod.rs` lines 271-288).
`readDir` is what `std::fs::read_dir(path)` returns for the configured root:
an io error when the root does not exist or is not readable, otherwise the
list of per-entry results. The Rust code calls `.unwrap()` on it, so the
error case panics (modeled as `Except.error`). With no configured root the
handler returns early, leaving `projects` untouched. -/
def AppModel.update_projects (s : AppModel)
    (readDir : Except String (List (Except String DirEntry))) :
    Except String AppModel :=
  match s.config.project_root_path with
  | none => .ok s
  | some _ =>
    match readDir with
    | .error e => .error e
    | .ok entries => .ok { s with projects := scanEntries entries }

/-- Model of `PathBuf::push` followed by `to_str` on Unix paths, as used by
the launch handler: pushing an absolute component replaces the whole path;
otherwise a separator is inserted unless the base is empty or already ends
with one. -/
def pathPush (root name : String) : String :=
  if name.toList.head? == some '/' then name
  else if root.toList.isEmpty || root.toList.getLast? == some '/' then root ++ name
  else root ++ "/" ++ name

/-- The placeholder `%path%` as a character list. -/
def pathPat : List Char := "%path%".toList

/-- Model of Rust `str::replace("%path%", rep)`: scan left to right,
replacing each non-overlapping occurrence of `%path%` with `rep`; replaced
text is not rescanned. The fixed pattern `%path%` is matched literally. -/
def replacePat (rep : List Char) : List Char → List Char
  | '%' :: 'p' :: 'a' :: 't' :: 'h' :: '%' :: rest => rep ++ replacePat rep rest
  | c :: rest => c :: replacePat rep rest
  | [] => []

/-- Accumulator-based model of Rust `str::split_whitespace` (ASCII
whitespace; every command in this repository is ASCII). `acc` holds the
characters of the current token in reverse. -/
def splitWsAux : List Char → List Char → List (List Char)
  | acc, [] => if acc.isEmpty then [] else [acc.reverse]
  | acc, c :: rest =>
    if c.isWhitespace then
      if acc.isEmpty then splitWsAux [] rest else acc.reverse :: splitWsAux [] rest
    else splitWsAux (c :: acc) rest

/-- Model of Rust `str::split_whitespace`: the whitespace-separated tokens of
`s`, with no empty tokens. -/
def splitWs (s : List Char) : List (List Char) := splitWsAux [] s

/-- `Message::LaunchProject` handler (`src/app/mod.rs` lines 212-238): find
the program by name (`return Task::none()` when absent, modeled as
`.ok (s, none)`: state unchanged, nothing spawned); unwrap the configured
root (panic when unset); join root and project name with `PathBuf::push`;
substitute every `%path%`; split on whitespace; unwrap the first token as
the executable (panic when there is none); the spawn attempt with the
remaining tokens as arguments is returned as `some (exec, args)` — its io
result is discarded by the code (`let _ = ... .spawn()`). -/
def AppModel.launch_project (s : AppModel) (project_name program_name : String) :
    Except String (AppModel × Option (String × List String)) :=
  match s.programs.find? fun program => program.name == program_name with
  | none => .ok (s, none)
  | some program =>
    match s.config.project_root_path with
    | none => .error "called Option::unwrap() on a None value"
    | some root =>
      let path := pathPush root project_name
      let command := replacePat path.toList program.command.toList
      match splitWs command with
      | [] => .error "called Option::unwrap() on a None value"
      | exec :: args => .ok (s, some (String.mk exec, args.map String.mk))

/-- Case-insensitive containment, written from the spec's words ("treat as
case-insensitive") purely for comparison with the code's behavior: lowercase
both the name and the query and test containment. -/
def ciContains (hay needle : String) : Bool :=
  containsSeq (needle.toList.map Char.toLower) (hay.toList.map Char.toLower)

/-- An entry of a `read_dir` listing is fully readable when the iteration
step succeeded, its file name is valid UTF-8, and its metadata and modified
time are both retrievable. -/
def readableEntry : Except String DirEntry → Bool
  | .error _ => false
  | .ok e =>
    match e.file_name, e.metadata with
    | some _, .ok m =>
      match m.modified with
      | .ok _ => true
      | .error _ => false
    | _, _ => false

/-- Fixture: the `vscode` program of the spec's launch example. -/
def exProg : Program := ⟨"vscode", "code %path%"⟩

/-- Fixture: a baseline application state with one registered program and the
root `/home/u/projects` configured. -/
def exState : AppModel :=
  { config_handler := some ()
    config := { project_root_path := some "/home/u/projects", programs := [exProg] }
    search_text := ""
    root_path_input := ""
    program_command_input := ""
    program_name_input := ""
    projects := []
    programs := [exProg] }

/-- Fixture: state with no persistence handle (store backend unavailable). -/
def noHandlerState : AppModel := { exState with config_handler := none }

/-- Fixture: state with no configured root but a previously scanned project,
to observe whether the scan handler empties the cached list. -/
def noRootState : AppModel :=
  { exState with
    config := { project_root_path := none, programs := [exProg] }
    projects := [⟨"old", 9⟩] }

/-- Fixture: a program whose command template is the empty string (such a
program can reach the registry through a hand-edited persisted config, which
the loader accepts field-compatibly). -/
def brokenProg : Program := ⟨"broken", ""⟩

/-- Fixture: state whose registry holds only `brokenProg`. -/
def brokenState : AppModel := { exState with programs := [brokenProg] }

/-- Fixture: the three projects of the spec's filter example, with distinct
recency timestamps. -/
def pAbcproj : Project := ⟨"abcproj", 3⟩

/-- Fixture: see `pAbcproj`. -/
def pXyz : Project := ⟨"xyz", 2⟩

/-- Fixture: see `pAbcproj`. -/
def pAbcd : Project := ⟨"abcd", 1⟩

/-- Fixture: the spec's filter example state, query `abc`. -/
def filtState : AppModel :=
  { exState with projects := [pAbcproj, pXyz, pAbcd], search_text := "abc" }

/-- Fixture: a project whose name matches the query `abc` only up to case. -/
def pABC : Project := ⟨"ABC", 0⟩

/-- Fixture: state holding only `pABC`, query `abc`. -/
def upperState : AppModel := { exState with projects := [pABC], search_text := "abc" }

/-- Fixture: pending inputs that duplicate the registered name `vscode`. -/
def dupState : AppModel :=
  { exState with program_name_input := "vscode", program_command_input := "code %path%" }

/-- Fixture: projects with a timestamp tie, to observe stable ordering. -/
def tieState : AppModel :=
  { exState with projects := [⟨"a", 5⟩, ⟨"b", 5⟩, ⟨"c", 7⟩] }

/-- Fixture: a `read_dir` listing with two fully readable entries and four
unreadable ones (iteration error, non-UTF-8 name, metadata error, modified
error). -/
def demoEntries : List (Except String DirEntry) :=
  [.ok ⟨some "alpha", .ok ⟨.ok 5⟩⟩,
   .error "io error",
   .ok ⟨none, .ok ⟨.ok 1⟩⟩,
   .ok ⟨some "beta", .ok ⟨.ok 7⟩⟩,
   .ok ⟨some "gamma", .error "permission denied"⟩,
   .ok ⟨some "delta", .ok ⟨.error "modified unavailable"⟩⟩]

/-! ### Helper lemmas -/

/-- `List.isPrefixOf` agrees with the `<+:` relation on character lists. -/
theorem isPrefixOf_iff : ∀ l₁ l₂ : List Char, l₁.isPrefixOf l₂ = true ↔ l₁ <+: l₂
  | [], l₂ => by simp [List.isPrefixOf]
  | a :: l₁, [] => by simp [List.isPrefixOf]
  | a :: l₁, b :: l₂ => by
    simp [List.isPrefixOf, List.cons_prefix_cons, isPrefixOf_iff l₁ l₂]

/-- `containsSeq` decides the contiguous-occurrence (`<:+:`) relation. -/
theorem containsSeq_iff (needle : List Char) :
    ∀ hay : List Char, containsSeq needle hay = true ↔ needle <:+: hay
  | [] => by simp [containsSeq, List.infix_nil]
  | c :: rest => by
    simp [containsSeq, isPrefixOf_iff, containsSeq_iff needle rest, List.infix_cons_iff]

/-- `strContains` decides substring containment on the underlying characters. -/
theorem strContains_iff (hay needle : String) :
    strContains hay needle = true ↔ needle.toList <:+: hay.toList :=
  containsSeq_iff needle.toList hay.toList

/-- Characterization of `AppModel.is_valid_program`, shared by the validation
claims. -/
theorem is_valid_iff (s : AppModel) :
    s.is_valid_program = true ↔
      s.program_name_input ≠ ""
        ∧ (∀ p ∈ s.programs, p.name ≠ s.program_name_input)
        ∧ pathPat <:+: s.program_command_input.toList := by
  unfold AppModel.is_valid_program Program.is_valid_command
  simp only [Bool.and_eq_true, Bool.not_eq_true', Bool.or_eq_true, List.any_eq_true,
    beq_iff_eq, strContains_iff, pathPat]
  simp only [Bool.eq_false_iff, ne_eq, String.isEmpty_iff, List.any_eq_true, beq_iff_eq,
    not_exists, not_and]
  tauto

/-- `scanEntries` emits exactly one project per fully readable entry. -/
theorem scanEntries_length :
    ∀ entries : List (Except String DirEntry),
      (scanEntries entries).length = entries.countP readableEntry
  | [] => rfl
  | .error err :: rest => by
    simpa [scanEntries, List.filterMap_cons, List.countP_cons, readableEntry,
      Except.toOption] using scanEntries_length rest
  | .ok ⟨none, md⟩ :: rest => by
    simpa [scanEntries, List.filterMap_cons, List.countP_cons, readableEntry,
      Except.toOption, Project.try_from] using scanEntries_length rest
  | .ok ⟨some n, .error e⟩ :: rest => by
    simpa [scanEntries, List.filterMap_cons, List.countP_cons, readableEntry,
      Except.toOption, Project.try_from] using scanEntries_length rest
  | .ok ⟨some n, .ok ⟨.error e⟩⟩ :: rest => by
    simpa [scanEntries, List.filterMap_cons, List.countP_cons, readableEntry,
      Except.toOption, Project.try_from] using scanEntries_length rest
  | .ok ⟨some n, .ok ⟨.ok m⟩⟩ :: rest => by
    simpa [scanEntries, List.filterMap_cons, List.countP_cons, readableEntry,
      Except.toOption, Project.try_from] using scanEntries_length rest

/-! ### Claim theorems -/

/-- C1: at the failing input — a configured root whose `read_dir` fails
because the directory does not exist or is not readable — the scan handler
panics (`read_dir(path).unwrap()`) instead of returning an empty project
list; and with no configured root the handler leaves the previously cached
project list untouched rather than producing an empty one. -/
theorem C1_unreadable_root_behavior :
    exState.update_projects (.error "No such file or directory (os error 2)")
        = .error "No such file or directory (os error 2)"
      ∧ noRootState.update_projects (.ok []) = .ok noRootState :=
  ⟨rfl, rfl⟩

/-- C2: for every state whose pending (name, command) inputs would fail
validation — empty name, duplicate name, or command lacking the literal
`%path%` — the add-program operation (the Add button flow: the presentation
layer dispatches `Message::ProgramSave` only when `is_valid_program` holds)
is a no-op: no panic, the whole state including the registry and the
persisted config is unchanged. -/
theorem C2_invalid_add_noop (s : AppModel) (writeOk : Bool)
    (h : s.program_name_input = ""
        ∨ (∃ p ∈ s.programs, p.name = s.program_name_input)
        ∨ ¬ pathPat <:+: s.program_command_input.toList) :
    s.add_program writeOk = .ok s := by
  have hv : s.is_valid_program = false := by
    rw [Bool.eq_false_iff]
    intro hvalid
    obtain ⟨h1, h2, h3⟩ := (is_valid_iff s).mp hvalid
    rcases h with h | ⟨p, hp, hpn⟩ | h
    · exact h1 h
    · exact h2 p hp hpn
    · exact h h3
  simp [AppModel.add_program, hv]

/-- C2 witness: adding while the pending name duplicates the registered
`vscode` program leaves the state unchanged. -/
theorem C2_witness :
    dupState.add_program true = .ok dupState ∧ dupState.is_valid_program = false :=
  ⟨C2_invalid_add_noop dupState true (Or.inr (Or.inl ⟨exProg, by decide, rfl⟩)), rfl⟩

/-- C3: at the failing input — the write handle absent because the store
backend is unavailable — both the root-path save and the program-list save
panic (`self.config_handler.as_ref().unwrap()`) instead of logging and
continuing with the in-memory value. -/
theorem C3_absent_handler_behavior :
    noHandlerState.root_path_save "/home/u/projects" true
        = .error "called Option::unwrap() on a None value"
      ∧ noHandlerState.save_programs true
        = .error "called Option::unwrap() on a None value" :=
  ⟨rfl, rfl⟩

/-- C4 counterexample: with the single project `ABC` and query `abc`, the
query matches the name case-insensitively (the spec's selection rule), yet
`filter_projects` selects nothing — the code matches case-sensitively. -/
theorem C4_counterexample :
    upperState.filter_projects = []
      ∧ pABC ∈ upperState.projects
      ∧ ciContains pABC.name upperState.search_text = true :=
  ⟨rfl, by decide, rfl⟩

/-- C4 amended: `filter_projects` selects exactly the projects whose name
contains the query as a case-SENSITIVE substring, the empty query selects
all, and the spec's (all-lowercase) example still selects `abcproj` and
`abcd`. -/
theorem C4_case_sensitive_filter :
    (∀ (s : AppModel) (p : Project),
        p ∈ s.filter_projects ↔
          p ∈ s.projects
            ∧ (s.search_text = "" ∨ s.search_text.toList <:+: p.name.toList))
      ∧ filtState.filter_projects = [pAbcproj, pAbcd] := by
  constructor
  · intro s p
    unfold AppModel.filter_projects
    rw [List.mem_insertionSort, List.mem_filter]
    simp [strContains_iff, String.isEmpty_iff]
  · rfl

/-- C5: at the failing input — a registry program whose command template is
the empty string, so substitution yields the empty string — the launch
handler panics (`command.next().unwrap()` on the empty token stream) instead
of merely failing the spawn attempt. -/
theorem C5_empty_substitution_behavior :
    replacePat (pathPush "/home/u/projects" "demo").toList brokenProg.command.toList = []
      ∧ brokenState.launch_project "demo" "broken"
        = .error "called Option::unwrap() on a None value" :=
  ⟨rfl, rfl⟩

/-- C6: whenever the program is found and a root is configured, the launch
handler resolves the spawn as described: join `root` and the project name
(`pathPush`), replace every `%path%` occurrence in the command with that
joined path (`replacePat`), whitespace-tokenize (`splitWs`); the first token
is the executable and the rest are the arguments. -/
theorem C6_launch_resolution (s : AppModel) (program : Program)
    (project_name root : String) (exec : List Char) (args : List (List Char))
    (hfind : s.programs.find? (fun p => p.name == program.name) = some program)
    (hroot : s.config.project_root_path = some root)
    (htok : splitWs (replacePat (pathPush root project_name).toList
        program.command.toList) = exec :: args) :
    s.launch_project project_name program.name
      = .ok (s, some (String.mk exec, args.map String.mk)) := by
  have htok' : splitWs (replacePat (pathPush root project_name).data
      program.command.data) = exec :: args := htok
  simp [AppModel.launch_project, hfind, hroot, htok']

/-- C6 witness: the spec's example — command `code %path%`, project `demo`,
root `/home/u/projects` — resolves to executable `code` with the single
argument `/home/u/projects/demo`. -/
theorem C6_witness :
    exState.programs.find? (fun p => p.name == exProg.name) = some exProg
      ∧ exState.config.project_root_path = some "/home/u/projects"
      ∧ splitWs (replacePat (pathPush "/home/u/projects" "demo").toList
          exProg.command.toList) = ["code".toList, "/home/u/projects/demo".toList]
      ∧ exState.launch_project "demo" "vscode"
        = .ok (exState, some ("code", ["/home/u/projects/demo"])) :=
  ⟨rfl, rfl, rfl,
    C6_launch_resolution exState exProg "demo" "/home/u/projects" "code".toList
      ["/home/u/projects/demo".toList] rfl rfl rfl⟩

/-- C7: `is_valid_program` returns true iff the pending name is non-empty,
no registered program already has that name, and the pending command
contains `%path%` as a literal substring. -/
theorem C7_is_valid_program_iff (s : AppModel) :
    s.is_valid_program = true ↔
      s.program_name_input ≠ ""
        ∧ (∀ p ∈ s.programs, p.name ≠ s.program_name_input)
        ∧ pathPat <:+: s.program_command_input.toList :=
  is_valid_iff s

/-- C8: the filter result is sorted by `modify` descending (`byRecency`);
projects with equal timestamps keep their relative input order (for each
timestamp `t`, the result's `t`-entries are exactly the filtered input's
`t`-entries in order); and with the empty query the result is a permutation
of the whole input. -/
theorem C8_filter_sorted_stable (s : AppModel) :
    s.filter_projects.Sorted byRecency
      ∧ (∀ t : Nat,
          s.filter_projects.filter (fun p => p.modify == t)
            = (s.projects.filter fun project =>
                s.search_text.isEmpty || strContains project.name s.search_text).filter
                fun p => p.modify == t)
      ∧ (s.search_text = "" → s.filter_projects.Perm s.projects) := by
  refine ⟨List.sorted_insertionSort byRecency _, ?_, ?_⟩
  · intro t
    unfold AppModel.filter_projects
    set l := s.projects.filter fun project =>
        s.search_text.isEmpty || strContains project.name s.search_text with hl
    have hmem : ∀ p ∈ l.filter (fun p => p.modify == t), p.modify = t := by
      intro p hp
      exact beq_iff_eq.mp (List.mem_filter.mp hp).2
    have hpw : (l.filter fun p => p.modify == t).Pairwise byRecency :=
      List.pairwise_of_forall_mem_list fun a ha b hb => by
        unfold byRecency
        rw [hmem a ha, hmem b hb]
    have hsub : (l.filter fun p => p.modify == t).Sublist (List.insertionSort byRecency l) :=
      List.sublist_insertionSort hpw (List.filter_sublist l)
    have hself : (l.filter fun p => p.modify == t).filter (fun p => p.modify == t)
        = l.filter fun p => p.modify == t :=
      List.filter_eq_self.mpr fun a ha => (List.mem_filter.mp ha).2
    have hsub2 : (l.filter fun p => p.modify == t).Sublist
        ((List.insertionSort byRecency l).filter fun p => p.modify == t) := by
      have h1 := List.Sublist.filter (fun p => p.modify == t) hsub
      rwa [hself] at h1
    have hperm : ((List.insertionSort byRecency l).filter fun p => p.modify == t).Perm
        (l.filter fun p => p.modify == t) :=
      (List.perm_insertionSort byRecency l).filter fun p => p.modify == t
    exact (hsub2.eq_of_length hperm.length_eq.symm).symm
  · intro hq
    unfold AppModel.filter_projects
    have hall : (s.projects.filter fun project =>
        s.search_text.isEmpty || strContains project.name s.search_text) = s.projects := by
      rw [List.filter_eq_self]
      intro a ha
      rw [hq]
      rfl
    rw [hall]
    exact List.perm_insertionSort byRecency s.projects

/-- C8 witness: with a timestamp tie between `a` and `b` (input order `a`
before `b`), the empty-query result is sorted descending, is a permutation
of the input, and keeps `a` before `b`. -/
theorem C8_witness :
    tieState.filter_projects.Sorted byRecency
      ∧ tieState.filter_projects.Perm tieState.projects
      ∧ tieState.filter_projects = [⟨"c", 7⟩, ⟨"a", 5⟩, ⟨"b", 5⟩] :=
  ⟨(C8_filter_sorted_stable tieState).1, (C8_filter_sorted_stable tieState).2.2 rfl, rfl⟩

/-- C9: with a configured root whose `read_dir` succeeds, the scan handler
never panics: it replaces the cached list with one project per fully
readable entry (`(scanEntries entries).length = countP readableEntry`),
skipping — never fabricating — every unreadable entry. -/
theorem C9_scan_readable (s : AppModel) (root : String)
    (entries : List (Except String DirEntry))
    (hroot : s.config.project_root_path = some root) :
    s.update_projects (.ok entries) = .ok { s with projects := scanEntries entries }
      ∧ (scanEntries entries).length = entries.countP readableEntry := by
  constructor
  · unfold AppModel.update_projects
    rw [hroot]
  · exact scanEntries_length entries

/-- C9 witness: a listing with two readable and four unreadable entries
yields exactly two projects and no panic. -/
theorem C9_witness :
    (exState.update_projects (.ok demoEntries)
        = .ok { exState with projects := scanEntries demoEntries }
      ∧ (scanEntries demoEntries).length = demoEntries.countP readableEntry)
      ∧ demoEntries.countP readableEntry = 2 :=
  ⟨C9_scan_readable exState "/home/u/projects" demoEntries rfl, rfl⟩

/-- C10: a launch request naming a program absent from the registry is a
no-op: the handler returns the state unchanged and spawns nothing. -/
theorem C10_unknown_program_noop (s : AppModel) (project_name program_name : String)
    (h : ∀ p ∈ s.programs, p.name ≠ program_name) :
    s.launch_project project_name program_name = .ok (s, none) := by
  have hf : s.programs.find? (fun p => p.name == program_name) = none :=
    List.find?_eq_none.mpr fun p hp => by
      simp only [ne_eq, beq_iff_eq]
      exact h p hp
  simp [AppModel.launch_project, hf]

/-- C10 witness: launching with the unregistered name `missing` leaves the
baseline state unchanged and spawns nothing. -/
theorem C10_witness :
    (∀ p ∈ exState.programs, p.name ≠ "missing")
      ∧ exState.launch_project "demo" "missing" = .ok (exState, none) :=
  ⟨by decide, C10_unknown_program_noop exState "demo" "missing" (by decide)⟩

end ProjectOverview
